import Mathlib

/-!
Verification of the task-manager program (`task_manager.py`) against its
natural-language specification.

The program stores tasks and users as delimited text lines in flat files
(`tasks.txt`, `user.txt`).  This file gives a shallow embedding of the
record codec (`Task.from_string` / `Task.to_string`, `User.from_string` /
`User.to_string`), the store operations (`get_all_task_data`,
`get_all_user_data`, `Task.update`, `User.new`), the task-domain operations
(`sort_tasks`, `Task.update_assignee`, `User.validate`) and the reporting
computations (`generate_reports`, `User.stats`).

Modelling conventions:
  * Python `str` is Lean `String`; character-level work happens on
    `String.toList` (Python strings are sequences of code points; all the
    data here is plain text, where the two agree).
  * File state is passed explicitly: a function that in Python reads or
    writes `tasks.txt` / `user.txt` takes the current file content as a
    `String` argument and returns the new content.
  * Python exceptions (`IndexError` from over-indexing a `split` result,
    `ValueError` from `datetime.strptime`, `ZeroDivisionError`) are the
    `Except PyErr` monad, raised at the same program points and in the same
    evaluation order as in the source.
  * Python `float` percentage arithmetic is modelled as exact rational
    arithmetic (`Rat`); every claim about these numbers concerns only the
    division-by-zero guard, never float rounding.
  * `datetime` values produced by `strptime("%d %b %Y")` are midnight
    date values, modelled as `PyDate` (year, month, day); `datetime.now()`
    additionally carries a time of day, modelled as `PyDateTime`.
-/

namespace TaskManager

/-- Python runtime errors the translated code can raise. -/
inductive PyErr where
  | indexError
  | valueError
  | zeroDivisionError
deriving DecidableEq, Repr

/-! ### Splitting and joining delimited text

Python's `str.split(sep)` for a non-empty separator splits on every
non-overlapping occurrence of `sep`, scanning left to right, and returns
`[""]` on the empty string.  `sep.join(xs)` concatenates with `sep`
between consecutive items.  The program uses `split("\n")` (one record per
line), `split(", ")` (fields within a record) and `split(" ")` only
implicitly via date parsing. -/

/-- Python `s.split(d)` for a single-character separator `d`. -/
def splitOnChar (d : Char) : List Char → List (List Char)
  | [] => [[]]
  | c :: rest =>
    if c = d then [] :: splitOnChar d rest
    else
      let r := splitOnChar d rest
      (c :: r.headI) :: r.tail

/-- Python `s.split(", ")`: split on every non-overlapping occurrence of
the two-character delimiter comma-space, scanning left to right. -/
def splitCS : List Char → List (List Char)
  | [] => [[]]
  | [c] => [[c]]
  | c1 :: c2 :: rest =>
    if c1 = ',' ∧ c2 = ' ' then [] :: splitCS rest
    else
      let r := splitCS (c2 :: rest)
      (c1 :: r.headI) :: r.tail

/-- Whether a string contains the field delimiter `", "` as a substring
(Python `", " in s`, the property `validate_string` rejects). -/
def hasCS : List Char → Bool
  | [] => false
  | [_] => false
  | c1 :: c2 :: rest => (decide (c1 = ',') && decide (c2 = ' ')) || hasCS (c2 :: rest)

/-- Python `", ".join(fields)`. -/
def joinFields : List (List Char) → List Char
  | [] => []
  | [f] => f
  | f :: g :: fs => f ++ ',' :: ' ' :: joinFields (g :: fs)

/-- Python `l[i]`: the element, or `IndexError`. -/
def pyIdx (l : List (List Char)) (i : Nat) : Except PyErr (List Char) :=
  match l.get? i with
  | some x => .ok x
  | none => .error .indexError

/-! ### Dates

`DATETIME_STRING_FORMAT = "%d %b %Y"`: a two-digit zero-padded day, an
abbreviated month name and a four-digit year, separated by single spaces
(e.g. `24 Dec 2022`).  `strftime` renders exactly that; `strptime` accepts
a 1- or 2-digit day in range, the month abbreviation case-insensitively
and a 4-digit year, and then validates the calendar date (Python raises
`ValueError` for e.g. `31 Feb 2030`).  (Python's `strptime` additionally
tolerates repeated whitespace between fields; the claims below never
depend on that leniency.) -/

structure PyDate where
  year : Nat
  month : Nat
  day : Nat
deriving DecidableEq, Repr

/-- `datetime.now()`: a calendar date plus a time of day (in any sub-day
unit; only its positivity ever matters). -/
structure PyDateTime where
  date : PyDate
  tod : Nat
deriving DecidableEq, Repr

def isLeapYear (y : Nat) : Bool :=
  y % 4 = 0 && (y % 100 ≠ 0 || y % 400 = 0)

def daysInMonth (y m : Nat) : Nat :=
  if m = 2 then (if isLeapYear y then 29 else 28)
  else if m = 4 ∨ m = 6 ∨ m = 9 ∨ m = 11 then 30
  else 31

/-- The decimal digit character for `n < 10`. -/
def digitCh (n : Nat) : Char := Char.ofNat (48 + n)

/-- The value of a decimal digit character, if it is one. -/
def chDigit? (c : Char) : Option Nat :=
  if 48 ≤ c.toNat ∧ c.toNat ≤ 57 then some (c.toNat - 48) else none

/-- `strftime("%d")`: the day zero-padded to two digits. -/
def pad2 (n : Nat) : List Char := [digitCh (n / 10), digitCh (n % 10)]

/-- `strftime("%Y")` for a four-digit year. -/
def pad4 (n : Nat) : List Char :=
  [digitCh (n / 1000), digitCh (n / 100 % 10), digitCh (n / 10 % 10), digitCh (n % 10)]

/-- `strftime("%b")`: the abbreviated month name. -/
def monthAbbrev : Nat → List Char
  | 1 => "Jan".toList
  | 2 => "Feb".toList
  | 3 => "Mar".toList
  | 4 => "Apr".toList
  | 5 => "May".toList
  | 6 => "Jun".toList
  | 7 => "Jul".toList
  | 8 => "Aug".toList
  | 9 => "Sep".toList
  | 10 => "Oct".toList
  | 11 => "Nov".toList
  | 12 => "Dec".toList
  | _ => []

/-- `strptime`'s `%d`: one or two decimal digits with value in `1..31`
(the regex `(3[01]|[12]\d|0[1-9]|[1-9])`). -/
def parseDay (cs : List Char) : Option Nat :=
  match cs.mapM chDigit? with
  | some [a] => if 1 ≤ a then some a else none
  | some [a, b] => if 1 ≤ 10 * a + b ∧ 10 * a + b ≤ 31 then some (10 * a + b) else none
  | _ => none

/-- `strptime`'s `%b`: an abbreviated month name, case-insensitively. -/
def parseMonth (cs : List Char) : Option Nat :=
  let l := cs.map Char.toLower
  if l = "jan".toList then some 1
  else if l = "feb".toList then some 2
  else if l = "mar".toList then some 3
  else if l = "apr".toList then some 4
  else if l = "may".toList then some 5
  else if l = "jun".toList then some 6
  else if l = "jul".toList then some 7
  else if l = "aug".toList then some 8
  else if l = "sep".toList then some 9
  else if l = "oct".toList then some 10
  else if l = "nov".toList then some 11
  else if l = "dec".toList then some 12
  else none

/-- `strptime`'s `%Y`: exactly four decimal digits; `datetime` requires
the year to be at least 1. -/
def parseYear (cs : List Char) : Option Nat :=
  match cs.mapM chDigit? with
  | some [a, b, c, d] =>
    let v := 1000 * a + 100 * b + 10 * c + d
    if 1 ≤ v then some v else none
  | _ => none

/-- `datetime.strptime(s, "%d %b %Y")` as an `Option`: day, month and
year tokens separated by single spaces, then the calendar check the
`datetime` constructor performs. -/
def parseDate (s : List Char) : Option PyDate :=
  match splitOnChar ' ' s with
  | [dt, mt, yt] =>
    match parseDay dt, parseMonth mt, parseYear yt with
    | some d, some m, some y =>
      if d ≤ daysInMonth y m then some ⟨y, m, d⟩ else none
    | _, _, _ => none
  | _ => none

/-- `d.strftime("%d %b %Y")`. -/
def formatDate (d : PyDate) : List Char :=
  pad2 d.day ++ ' ' :: (monthAbbrev d.month ++ ' ' :: pad4 d.year)

/-- `strptime` as the program calls it: `ValueError` on failure. -/
def pyStrptime (cs : List Char) : Except PyErr PyDate :=
  match parseDate cs with
  | some d => .ok d
  | none => .error .valueError

/-- Chronological comparison of the dates (`datetime` ordering restricted
to midnight values): lexicographic on year, month, day. -/
def PyDate.leb (a b : PyDate) : Bool :=
  a.year < b.year ||
    (a.year = b.year && (a.month < b.month || (a.month = b.month && a.day ≤ b.day)))

def PyDate.ltb (a b : PyDate) : Bool :=
  a.year < b.year ||
    (a.year = b.year && (a.month < b.month || (a.month = b.month && a.day < b.day)))

/-- `due_date < datetime.now()`: the stored due date is a midnight
`datetime`; it is strictly before `now` iff its date is earlier, or the
dates agree and `now` has a positive time of day. -/
def dueBefore (d : PyDate) (now : PyDateTime) : Bool :=
  PyDate.ltb d now.date || (d = now.date && decide (0 < now.tod))

/-! ### The `Task` and `User` records and their codec -/

structure Task where
  username : String
  title : String
  description : String
  due_date : PyDate
  assigned_date : PyDate
  completed : Bool
deriving DecidableEq, Repr

structure User where
  username : String
  password : String
deriving DecidableEq, Repr

/-- `Task.to_string`: the six fields joined with `", "`, dates rendered
with `strftime("%d %b %Y")`, the completed flag as `Yes`/`No`. -/
def Task.to_string (t : Task) : String :=
  String.mk (joinFields
    [t.username.toList, t.title.toList, t.description.toList,
     formatDate t.due_date, formatDate t.assigned_date,
     (if t.completed then "Yes" else "No").toList])

/-- `Task.from_string`: split on `", "`, then read the six positional
fields in source order — `tasks[0]` … `tasks[3]`, `strptime(tasks[3])`,
`tasks[4]`, `strptime(tasks[4])`, `tasks[5]`.  Missing indices raise
`IndexError`, bad dates `ValueError`; the sixth field is compared with
`"Yes"` and anything else silently becomes `False`; fields past the sixth
are ignored. -/
def Task.from_string (s : String) : Except PyErr Task :=
  let fields := splitCS s.toList
  match pyIdx fields 0 with
  | .error e => .error e
  | .ok f0 =>
  match pyIdx fields 1 with
  | .error e => .error e
  | .ok f1 =>
  match pyIdx fields 2 with
  | .error e => .error e
  | .ok f2 =>
  match pyIdx fields 3 with
  | .error e => .error e
  | .ok f3 =>
  match pyStrptime f3 with
  | .error e => .error e
  | .ok due =>
  match pyIdx fields 4 with
  | .error e => .error e
  | .ok f4 =>
  match pyStrptime f4 with
  | .error e => .error e
  | .ok assigned =>
  match pyIdx fields 5 with
  | .error e => .error e
  | .ok f5 =>
    .ok ⟨String.mk f0, String.mk f1, String.mk f2, due, assigned,
         decide (f5 = "Yes".toList)⟩

/-- `User.to_string`: username and password joined with `", "`. -/
def User.to_string (u : User) : String :=
  String.mk (joinFields [u.username.toList, u.password.toList])

/-- `User.from_string`: split on `", "` and read `user[0]`, `user[1]`. -/
def User.from_string (s : String) : Except PyErr User :=
  let fields := splitCS s.toList
  match pyIdx fields 0 with
  | .error e => .error e
  | .ok f0 =>
  match pyIdx fields 1 with
  | .error e => .error e
  | .ok f1 => .ok ⟨String.mk f0, String.mk f1⟩

/-! ### The store: reading and writing the files -/

/-- `get_all_task_data()`: read `tasks.txt`, split on newlines, decode
every line in order; the first failing line's exception propagates. -/
def get_all_task_data (content : String) : Except PyErr (List Task) :=
  (splitOnChar '\n' content.toList).mapM (fun line => Task.from_string (String.mk line))

/-- `get_all_user_data()`: the same for `user.txt`. -/
def get_all_user_data (content : String) : Except PyErr (List User) :=
  (splitOnChar '\n' content.toList).mapM (fun line => User.from_string (String.mk line))

/-- Python `==` between a `Task` instance and a `str`: `Task` defines no
`__eq__`, so both `Task.__eq__` and the reflected `str.__eq__` return
`NotImplemented` and Python falls back to object identity — a `Task`
object and a string are never the same object, so the comparison is
always `False`. -/
def pyTaskEqStr (_ : Task) (_ : String) : Bool := false

/-- Python `==` between `task_list : list[Task]` and
`new_task_list : list[str]`: equal lengths and element-wise `==`. -/
def pyListEqTaskStr : List Task → List String → Bool
  | [], [] => true
  | t :: ts, s :: ss => pyTaskEqStr t s && pyListEqTaskStr ts ss
  | _, _ => false

/-- The outcome `Task.update` leaves behind: the content of `tasks.txt`
after the call and whether the conflict prompt ("There was a problem
trying to update your task…") was shown. -/
structure UpdateResult where
  file : String
  conflictMsg : Bool
deriving DecidableEq, Repr

/-- `Task.update(original_task_string)` acting on the current content of
`tasks.txt`.

With a non-empty `original_task_string` the source re-reads the task
list, builds `new_task_list` — a list of *strings* in which every task
whose re-encoding equals `original_task_string` is replaced by the
updated task's encoding — and then tests `task_list != new_task_list`.
That comparison pits a `list[Task]` against a `list[str]`, so it is true
whenever the lists are non-empty (see `pyTaskEqStr`); when it is true the
file is overwritten with `"\n".join(new_task_list)`, otherwise the
conflict prompt is shown and nothing is written.

With an empty `original_task_string` (Python falsiness) the encoded task
is appended after a newline. -/
def Task.update (self : Task) (original_task_string : String) (content : String) :
    Except PyErr UpdateResult :=
  if original_task_string ≠ "" then
    match get_all_task_data content with
    | .error e => .error e
    | .ok task_list =>
      let new_task_list := task_list.map (fun task =>
        if original_task_string = task.to_string then self.to_string else task.to_string)
      if pyListEqTaskStr task_list new_task_list then
        .ok ⟨content, true⟩
      else
        .ok ⟨String.intercalate "\n" new_task_list, false⟩
  else
    .ok ⟨content ++ "\n" ++ self.to_string, false⟩

/-- `User.new`: append a newline and the encoded user to `user.txt`. -/
def User.new (self : User) (content : String) : String :=
  content ++ "\n" ++ self.to_string

/-! ### Task domain -/

/-- `x ≤ y` on Python booleans (`False < True`). -/
def boolLe (x y : Bool) : Bool := !x || y

/-- A stable insertion: `a` goes after every element strictly below it
under `le`, and before the first tied-or-greater element. -/
def sortedInsert (le : α → α → Bool) (a : α) : List α → List α
  | [] => [a]
  | b :: bs =>
    if le b a && !le a b then b :: sortedInsert le a bs else a :: b :: bs

/-- Stable sort (the semantics of Python's `sorted`): sorted with respect
to `le`, and elements tied under `le` keep their original order.  For a
total transitive `le` these two properties determine the output uniquely,
so any stable sorting algorithm — Timsort included — computes this
function. -/
def stableSort (le : α → α → Bool) : List α → List α
  | [] => []
  | x :: xs => sortedInsert le x (stableSort le xs)

/-- `sort_tasks`: `sorted(key=due_date, reverse=True)` followed by
`sorted(key=completed, reverse=True)`.  `sorted(..., reverse=True)` is a
stable descending sort, i.e. a stable sort under `a before b iff
key b ≤ key a`. -/
def sort_tasks (task_list : List Task) : List Task :=
  let l1 := stableSort (fun a b => PyDate.leb b.due_date a.due_date) task_list
  stableSort (fun a b => boolLe b.completed a.completed) l1

/-! ### Reporting -/

/-- Python `a / b` on the task counts: `ZeroDivisionError` when `b = 0`,
otherwise the exact quotient (float arithmetic modelled as `Rat`). -/
def pyDiv (a b : Nat) : Except PyErr Rat :=
  if b = 0 then .error .zeroDivisionError else .ok ((a : Rat) / (b : Rat))

/-- Python `round(x, 2)`: round half to even at two decimal places
(modelled exactly on rationals). -/
def pyRound2 (x : Rat) : Rat :=
  let y := x * 100
  let f := y.floor
  (↑(if y = (f : Rat) then f
     else if y - (f : Rat) < 1 / 2 then f
     else if (1 : Rat) / 2 < y - (f : Rat) then f + 1
     else if f % 2 = 0 then f else f + 1) : Rat) / 100

/-- The task-overview numbers `generate_reports` computes before writing
`task_overview.txt`. -/
structure TaskOverview where
  total_tasks : Nat
  total_completed_tasks : Nat
  total_uncompleted_tasks : Nat
  total_overdue_tasks : Nat
  percentage_of_incomplete_tasks : Rat
  percentage_of_overdue_tasks : Rat
deriving DecidableEq, Repr

/-- The statistics block of `generate_reports`, as a function of the task
list it scans: counts, then the two percentages, each divided by
`total_tasks` with no guard. -/
def task_overview_stats (task_list : List Task) (now : PyDateTime) :
    Except PyErr TaskOverview :=
  let total_tasks := task_list.length
  let total_completed_tasks := (task_list.filter (fun t => t.completed = true)).length
  let total_uncompleted_tasks := (task_list.filter (fun t => t.completed = false)).length
  let total_overdue_tasks :=
    (task_list.filter (fun t => dueBefore t.due_date now && t.completed = false)).length
  match pyDiv total_uncompleted_tasks total_tasks with
  | .error e => .error e
  | .ok qInc =>
  match pyDiv total_overdue_tasks total_tasks with
  | .error e => .error e
  | .ok qOver =>
    .ok ⟨total_tasks, total_completed_tasks, total_uncompleted_tasks,
         total_overdue_tasks, qInc * 100, qOver * 100⟩

/-- `generate_reports` up to the point the task overview is written:
read `tasks.txt`, then compute `task_overview_stats`. -/
def generate_reports (content : String) (now : PyDateTime) :
    Except PyErr TaskOverview :=
  match get_all_task_data content with
  | .error e => .error e
  | .ok task_list => task_overview_stats task_list now

/-- The dictionary `User.stats` returns.  The first three keys are always
present; the three per-completion percentages are set only inside the
`total_user_tasks > 0` branch, hence `Option`. -/
structure StatsDict where
  total_tasks : Nat
  total_user_tasks : Nat
  percentage_of_total_tasks : Rat
  percentage_tasks_completed : Option Rat
  percentage_pending_tasks : Option Rat
  percentage_overdue_tasks : Option Rat
deriving DecidableEq, Repr

/-- `User.stats` as a function of the full task list it reads:
`percentage_of_total_tasks` divides by the *global* task count with no
guard; the three per-completion percentages are guarded by
`total_user_tasks > 0` and divide by the user's task count. -/
def User.stats_calc (self : User) (total_tasks : List Task) (now : PyDateTime) :
    Except PyErr StatsDict :=
  let total_user_tasks := total_tasks.filter (fun t => t.username = self.username)
  match pyDiv total_user_tasks.length total_tasks.length with
  | .error e => .error e
  | .ok qTotal =>
    let pct_of_total := pyRound2 (qTotal * 100)
    if 0 < total_user_tasks.length then
      match pyDiv (total_user_tasks.filter (fun t => t.completed = true)).length
          total_user_tasks.length with
      | .error e => .error e
      | .ok qDone =>
      match pyDiv (total_user_tasks.filter (fun t => t.completed = false)).length
          total_user_tasks.length with
      | .error e => .error e
      | .ok qPend =>
      match pyDiv (total_user_tasks.filter (fun t =>
          t.completed = false && dueBefore t.due_date now)).length
          total_user_tasks.length with
      | .error e => .error e
      | .ok qOver =>
        .ok ⟨total_tasks.length, total_user_tasks.length, pct_of_total,
             some (qDone * 100), some (qPend * 100), some (qOver * 100)⟩
    else
      .ok ⟨total_tasks.length, total_user_tasks.length, pct_of_total,
           none, none, none⟩

/-- `User.stats`: read `tasks.txt`, then compute the statistics. -/
def User.stats (self : User) (content : String) (now : PyDateTime) :
    Except PyErr StatsDict :=
  match get_all_task_data content with
  | .error e => .error e
  | .ok task_list => self.stats_calc task_list now

/-! ### Reassignment and login -/

/-- What `update_assignee` leaves behind: the content of `tasks.txt`,
whether the unknown-user prompt ("That user does not exist…") was shown,
and whether the conflict prompt was shown. -/
structure AssigneeResult where
  file : String
  unknownUserMsg : Bool
  conflictMsg : Bool
deriving DecidableEq, Repr

/-- `Task.update_assignee(new_username)`: if `new_username` is among the
usernames read from `user.txt`, capture the task's current encoding,
replace the assignee and run `Task.update` with the captured encoding;
otherwise show the unknown-user prompt and touch nothing. -/
def Task.update_assignee (self : Task) (new_username : String)
    (userContent tasksContent : String) : Except PyErr AssigneeResult :=
  match get_all_user_data userContent with
  | .error e => .error e
  | .ok users =>
    if new_username ∈ users.map (fun u => u.username) then
      match Task.update { self with username := new_username } self.to_string
          tasksContent with
      | .error e => .error e
      | .ok r => .ok ⟨r.file, false, r.conflictMsg⟩
    else
      .ok ⟨tasksContent, true, false⟩

/-- `User.validate(username, password)`: scan the users read from
`user.txt` in file order and return the first whose username and password
both match; fall off the end (Python's implicit `None`) otherwise. -/
def User.validate (username password : String) (userContent : String) :
    Except PyErr (Option User) :=
  match get_all_user_data userContent with
  | .error e => .error e
  | .ok users =>
    .ok (users.find? (fun u => username = u.username && password = u.password))

/-! ### Helper lemmas -/

/-! Lemmas about the splitters. -/

theorem splitCS_pair (t : List Char) : splitCS (',' :: ' ' :: t) = [] :: splitCS t := by
  rw [splitCS]
  simp

theorem splitCS_cons2 (c1 c2 : Char) (rest : List Char) (h : ¬(c1 = ',' ∧ c2 = ' ')) :
    splitCS (c1 :: c2 :: rest) =
      (c1 :: (splitCS (c2 :: rest)).headI) :: (splitCS (c2 :: rest)).tail := by
  rw [splitCS, if_neg h]

theorem splitOnChar_cons (d c : Char) (rest : List Char) (h : ¬ c = d) :
    splitOnChar d (c :: rest) =
      (c :: (splitOnChar d rest).headI) :: (splitOnChar d rest).tail := by
  rw [splitOnChar, if_neg h]

theorem splitOnChar_pair (d : Char) (rest : List Char) :
    splitOnChar d (d :: rest) = [] :: splitOnChar d rest := by
  rw [splitOnChar, if_pos rfl]

theorem splitOnChar_not_mem (d : Char) (l : List Char) (h : d ∉ l) :
    splitOnChar d l = [l] := by
  induction l with
  | nil => rfl
  | cons c rest ih =>
    have hcd : ¬ c = d := fun hc => h (by simp [hc])
    rw [splitOnChar_cons d c rest hcd, ih (fun hm => h (List.mem_cons_of_mem _ hm))]
    rfl

theorem splitOnChar_append (d : Char) (a t : List Char) (h : d ∉ a) :
    splitOnChar d (a ++ d :: t) = a :: splitOnChar d t := by
  induction a with
  | nil => simp [splitOnChar_pair]
  | cons c rest ih =>
    have hcd : ¬ c = d := fun hc => h (by simp [hc])
    rw [List.cons_append, splitOnChar_cons d c _ hcd,
      ih (fun hm => h (List.mem_cons_of_mem _ hm))]
    rfl

theorem splitCS_ne_nil (l : List Char) : splitCS l ≠ [] := by
  induction l using splitCS.induct with
  | case1 => simp [splitCS]
  | case2 c => simp [splitCS]
  | case3 c1 c2 rest hcond ih => simp [splitCS, hcond]
  | case4 c1 c2 rest hcond ih => simp [splitCS, hcond]

theorem splitCS_noCS (l : List Char) (h : hasCS l = false) : splitCS l = [l] := by
  induction l using splitCS.induct with
  | case1 => rfl
  | case2 c => rfl
  | case3 c1 c2 rest hcond ih =>
    exfalso
    simp [hasCS, hcond.1, hcond.2] at h
  | case4 c1 c2 rest hcond ih =>
    simp only [hasCS, Bool.or_eq_false_iff] at h
    rw [splitCS_cons2 c1 c2 rest hcond, ih h.2]
    rfl

theorem splitCS_append (a t : List Char) (h : hasCS a = false) :
    splitCS (a ++ ',' :: ' ' :: t) = a :: splitCS t := by
  induction a using splitCS.induct with
  | case1 => simp [splitCS_pair]
  | case2 c =>
    have hc : ¬(c = ',' ∧ (',' : Char) = ' ') := by
      intro hh
      exact absurd hh.2 (by decide)
    rw [List.cons_append, List.nil_append, splitCS_cons2 c ',' (' ' :: t) hc,
      splitCS_pair]
    rfl
  | case3 c1 c2 rest hcond ih =>
    exfalso; simp [hasCS, hcond.1, hcond.2] at h
  | case4 c1 c2 rest hcond ih =>
    simp only [hasCS, Bool.or_eq_false_iff] at h
    rw [List.cons_append, List.cons_append, splitCS_cons2 c1 c2 _ hcond]
    rw [List.cons_append] at ih
    rw [ih h.2]
    rfl

theorem splitCS_joinFields (fs : List (List Char)) (hne : fs ≠ [])
    (h : ∀ f ∈ fs, hasCS f = false) : splitCS (joinFields fs) = fs := by
  induction fs with
  | nil => exact absurd rfl hne
  | cons f fs ih =>
    cases fs with
    | nil => exact splitCS_noCS f (h f (by simp))
    | cons g fs' =>
      rw [joinFields, splitCS_append _ _ (h f (by simp)),
        ih (by simp) (fun x hx => h x (List.mem_cons_of_mem _ hx))]

/-! Digit and date lemmas. -/

theorem chDigit?_digitCh (n : Nat) (h : n < 10) : chDigit? (digitCh n) = some n := by
  interval_cases n <;> rfl

theorem digitCh_ne_space (n : Nat) (h : n < 10) : digitCh n ≠ ' ' := by
  interval_cases n <;> decide

theorem digitCh_ne_comma (n : Nat) (h : n < 10) : digitCh n ≠ ',' := by
  interval_cases n <;> decide

theorem parseDay_pad2 (d : Nat) (h1 : 1 ≤ d) (h2 : d ≤ 31) :
    parseDay (pad2 d) = some d := by
  have ha : d / 10 < 10 := by omega
  have hb : d % 10 < 10 := by omega
  simp only [parseDay, pad2, List.mapM_cons, List.mapM_nil,
    chDigit?_digitCh _ ha, chDigit?_digitCh _ hb, Option.pure_def,
    Option.bind_eq_bind, Option.some_bind]
  have : 10 * (d / 10) + d % 10 = d := by omega
  rw [this]
  simp [h1, h2]

theorem parseYear_pad4 (y : Nat) (h1 : 1000 ≤ y) (h2 : y ≤ 9999) :
    parseYear (pad4 y) = some y := by
  have ha : y / 1000 < 10 := by omega
  have hb : y / 100 % 10 < 10 := by omega
  have hc : y / 10 % 10 < 10 := by omega
  have hd : y % 10 < 10 := by omega
  simp only [parseYear, pad4, List.mapM_cons, List.mapM_nil,
    chDigit?_digitCh _ ha, chDigit?_digitCh _ hb, chDigit?_digitCh _ hc,
    chDigit?_digitCh _ hd, Option.pure_def, Option.bind_eq_bind, Option.some_bind]
  have : 1000 * (y / 1000) + 100 * (y / 100 % 10) + 10 * (y / 10 % 10) + y % 10 = y := by
    omega
  rw [this]
  simp
  omega

theorem parseMonth_monthAbbrev (m : Nat) (h1 : 1 ≤ m) (h2 : m ≤ 12) :
    parseMonth (monthAbbrev m) = some m := by
  interval_cases m <;> rfl

theorem daysInMonth_le_31 (y m : Nat) : daysInMonth y m ≤ 31 := by
  unfold daysInMonth
  split
  · split <;> omega
  · split <;> omega

/-- Validity of a stored date: a real calendar date whose year has four
digits.  (`strftime("%Y")` zero-pads years below 1000 only on some
platforms, so four-digit years are the ones the fixed format represents
unambiguously; `datetime` itself allows years `1..9999`.) -/
def PyDate.valid (d : PyDate) : Prop :=
  1 ≤ d.month ∧ d.month ≤ 12 ∧ 1 ≤ d.day ∧ d.day ≤ daysInMonth d.year d.month ∧
    1000 ≤ d.year ∧ d.year ≤ 9999

instance (d : PyDate) : Decidable d.valid := by
  unfold PyDate.valid
  infer_instance

theorem space_not_mem_pad2 (n : Nat) (h : n ≤ 99) : ' ' ∉ pad2 n := by
  have ha : n / 10 < 10 := by omega
  have hb : n % 10 < 10 := by omega
  intro hmem
  rcases (by simpa [pad2] using hmem : ' ' = digitCh (n / 10) ∨ ' ' = digitCh (n % 10)) with
    h' | h'
  · exact digitCh_ne_space _ ha h'.symm
  · exact digitCh_ne_space _ hb h'.symm

theorem space_not_mem_pad4 (n : Nat) (h : n ≤ 9999) : ' ' ∉ pad4 n := by
  intro hmem
  rcases (by simpa [pad4] using hmem :
      ' ' = digitCh (n / 1000) ∨ ' ' = digitCh (n / 100 % 10) ∨
        ' ' = digitCh (n / 10 % 10) ∨ ' ' = digitCh (n % 10)) with h' | h' | h' | h'
  · exact digitCh_ne_space _ (by omega) h'.symm
  · exact digitCh_ne_space _ (by omega) h'.symm
  · exact digitCh_ne_space _ (by omega) h'.symm
  · exact digitCh_ne_space _ (by omega) h'.symm

theorem space_not_mem_monthAbbrev (m : Nat) : ' ' ∉ monthAbbrev m := by
  unfold monthAbbrev
  split <;> decide

theorem parseDate_formatDate (d : PyDate) (h : d.valid) :
    parseDate (formatDate d) = some d := by
  obtain ⟨hm1, hm2, hd1, hd2, hy1, hy2⟩ := h
  have hd31 : d.day ≤ 31 := le_trans hd2 (daysInMonth_le_31 d.year d.month)
  have hsplit : splitOnChar ' ' (formatDate d) =
      [pad2 d.day, monthAbbrev d.month, pad4 d.year] := by
    rw [formatDate, splitOnChar_append ' ' _ _ (space_not_mem_pad2 _ (by omega)),
      splitOnChar_append ' ' _ _ (space_not_mem_monthAbbrev _),
      splitOnChar_not_mem ' ' _ (space_not_mem_pad4 _ hy2)]
  rw [parseDate, hsplit]
  simp only [parseDay_pad2 d.day hd1 hd31, parseMonth_monthAbbrev d.month hm1 hm2,
    parseYear_pad4 d.year hy1 hy2]
  simp [hd2]

theorem hasCS_of_not_comma (l : List Char) (h : ',' ∉ l) : hasCS l = false := by
  induction l using hasCS.induct with
  | case1 => rfl
  | case2 c => rfl
  | case3 c1 c2 rest ih =>
    have h1 : ¬ c1 = ',' := fun hc => h (by simp [hc])
    rw [hasCS]
    simp [h1, ih (fun hm => h (List.mem_cons_of_mem _ hm))]

theorem comma_not_mem_pad2 (n : Nat) (h : n ≤ 99) : ',' ∉ pad2 n := by
  intro hmem
  rcases (by simpa [pad2] using hmem : ',' = digitCh (n / 10) ∨ ',' = digitCh (n % 10)) with
    h' | h'
  · exact digitCh_ne_comma _ (by omega) h'.symm
  · exact digitCh_ne_comma _ (by omega) h'.symm

theorem comma_not_mem_pad4 (n : Nat) (h : n ≤ 9999) : ',' ∉ pad4 n := by
  intro hmem
  rcases (by simpa [pad4] using hmem :
      ',' = digitCh (n / 1000) ∨ ',' = digitCh (n / 100 % 10) ∨
        ',' = digitCh (n / 10 % 10) ∨ ',' = digitCh (n % 10)) with h' | h' | h' | h'
  · exact digitCh_ne_comma _ (by omega) h'.symm
  · exact digitCh_ne_comma _ (by omega) h'.symm
  · exact digitCh_ne_comma _ (by omega) h'.symm
  · exact digitCh_ne_comma _ (by omega) h'.symm

theorem comma_not_mem_monthAbbrev (m : Nat) : ',' ∉ monthAbbrev m := by
  unfold monthAbbrev
  split <;> decide

theorem hasCS_formatDate (d : PyDate) (h : d.valid) : hasCS (formatDate d) = false := by
  obtain ⟨hm1, hm2, hd1, hd2, hy1, hy2⟩ := h
  apply hasCS_of_not_comma
  intro hmem
  rw [formatDate] at hmem
  have hd31 : d.day ≤ 31 := le_trans hd2 (daysInMonth_le_31 d.year d.month)
  rcases List.mem_append.mp hmem with hmem | hmem
  · exact comma_not_mem_pad2 _ (by omega) hmem
  · rcases List.mem_cons.mp hmem with h' | hmem
    · exact absurd h' (by decide)
    · rcases List.mem_append.mp hmem with hmem | hmem
      · exact comma_not_mem_monthAbbrev _ hmem
      · rcases List.mem_cons.mp hmem with h' | hmem
        · exact absurd h' (by decide)
        · exact comma_not_mem_pad4 _ hy2 hmem

/-- A valid task record: no string field contains the `", "` delimiter and
both dates are real four-digit-year calendar dates. -/
def Task.valid (t : Task) : Prop :=
  hasCS t.username.toList = false ∧ hasCS t.title.toList = false ∧
    hasCS t.description.toList = false ∧ t.due_date.valid ∧ t.assigned_date.valid

/-- A valid user record: neither field contains the `", "` delimiter. -/
def User.valid (u : User) : Prop :=
  hasCS u.username.toList = false ∧ hasCS u.password.toList = false

instance (t : Task) : Decidable t.valid := by
  unfold Task.valid
  infer_instance

instance (u : User) : Decidable u.valid := by
  unfold User.valid
  infer_instance

theorem task_roundtrip (t : Task) (h : t.valid) :
    Task.from_string (Task.to_string t) = .ok t := by
  obtain ⟨un, ti, de, du, ass, co⟩ := t
  obtain ⟨hu, ht, hd, hdue, hass⟩ := h
  simp only at hu ht hd hdue hass
  have hfields : splitCS (Task.to_string ⟨un, ti, de, du, ass, co⟩).toList =
      [un.toList, ti.toList, de.toList, formatDate du, formatDate ass,
       (if co then "Yes" else "No").toList] := by
    show splitCS (joinFields _) = _
    rw [splitCS_joinFields]
    · simp
    · intro f hf
      simp only [List.mem_cons, List.not_mem_nil, or_false] at hf
      rcases hf with rfl | rfl | rfl | rfl | rfl | rfl
      · exact hu
      · exact ht
      · exact hd
      · exact hasCS_formatDate _ hdue
      · exact hasCS_formatDate _ hass
      · cases co
        · exact (by decide : hasCS "No".toList = false)
        · exact (by decide : hasCS "Yes".toList = false)
  rw [Task.from_string]
  rw [hfields]
  simp only [pyIdx, List.get?]
  rw [pyStrptime, pyStrptime, parseDate_formatDate _ hdue, parseDate_formatDate _ hass]
  cases co <;> simp

theorem user_roundtrip (u : User) (h : u.valid) :
    User.from_string (User.to_string u) = .ok u := by
  obtain ⟨un, pw⟩ := u
  obtain ⟨hu, hp⟩ := h
  simp only at hu hp
  have hfields : splitCS (User.to_string ⟨un, pw⟩).toList = [un.toList, pw.toList] := by
    show splitCS (joinFields _) = _
    rw [splitCS_joinFields]
    · simp
    · intro f hf
      simp only [List.mem_cons, List.not_mem_nil, or_false] at hf
      rcases hf with rfl | rfl
      · exact hu
      · exact hp
  rw [User.from_string]
  rw [hfields]
  simp [pyIdx]

/-! Stable-sort lemmas. -/

section StableSortLemmas

variable {α : Type} (le : α → α → Bool)

theorem sortedInsert_decomp (a : α) (l : List α) :
    ∃ p s, sortedInsert le a l = p ++ a :: s ∧ l = p ++ s ∧
      (∀ b ∈ p, le b a = true ∧ le a b = false) ∧
      (s = [] ∨ ∃ s0 s', s = s0 :: s' ∧ (le s0 a = false ∨ le a s0 = true)) := by
  induction l with
  | nil => exact ⟨[], [], rfl, rfl, by simp, Or.inl rfl⟩
  | cons b bs ih =>
    by_cases hc : le b a = true ∧ le a b = false
    · obtain ⟨p, s, h1, h2, h3, h4⟩ := ih
      refine ⟨b :: p, s, ?_, by simp [h2], ?_, h4⟩
      · rw [sortedInsert, if_pos (by simp [hc.1, hc.2]), h1]
        rfl
      · intro x hx
        rcases List.mem_cons.mp hx with rfl | hx
        · exact hc
        · exact h3 x hx
    · refine ⟨[], b :: bs, ?_, rfl, by simp, Or.inr ⟨b, bs, rfl, ?_⟩⟩
      · rw [sortedInsert, if_neg (by intro hq; simp at hq; exact hc ⟨hq.1, hq.2⟩)]
        rfl
      · cases h' : le b a with
        | false => exact Or.inl rfl
        | true =>
          cases h'' : le a b with
          | false => exact absurd ⟨h', h''⟩ hc
          | true => exact Or.inr rfl

theorem sortedInsert_perm (a : α) (l : List α) :
    (sortedInsert le a l).Perm (a :: l) := by
  obtain ⟨p, s, h1, h2, _, _⟩ := sortedInsert_decomp le a l
  rw [h1, h2]
  exact List.perm_middle

end StableSortLemmas

section StableSortMore

variable {α : Type} (le : α → α → Bool)

theorem stableSort_perm (l : List α) : (stableSort le l).Perm l := by
  induction l with
  | nil => rfl
  | cons x xs ih =>
    exact ((sortedInsert_perm le x (stableSort le xs)).trans (ih.cons x))

theorem sortedInsert_pairwise
    (htrans : ∀ a b c, le a b = true → le b c = true → le a c = true)
    (htot : ∀ a b, le a b = true ∨ le b a = true)
    (a : α) (l : List α) (hl : l.Pairwise (fun x y => le x y = true)) :
    (sortedInsert le a l).Pairwise (fun x y => le x y = true) := by
  obtain ⟨p, s, h1, h2, h3, h4⟩ := sortedInsert_decomp le a l
  subst h2
  rw [h1]
  rw [List.pairwise_append] at hl ⊢
  obtain ⟨hp, hs, hps⟩ := hl
  refine ⟨hp, ?_, ?_⟩
  · rw [List.pairwise_cons]
    refine ⟨?_, hs⟩
    -- a is ≤ every element of s
    rcases h4 with rfl | ⟨s0, s', rfl, hstop⟩
    · simp
    · have has0 : le a s0 = true := by
        rcases hstop with h' | h'
        · rcases htot a s0 with h'' | h''
          · exact h''
          · rw [h'] at h''
            exact absurd h'' (by simp)
        · exact h'
      intro x hx
      rcases List.mem_cons.mp hx with rfl | hx
      · exact has0
      · have := (List.pairwise_cons.mp hs).1 x hx
        exact htrans a s0 x has0 this
  · intro x hx y hy
    rcases List.mem_cons.mp hy with rfl | hy
    · exact (h3 x hx).1
    · exact hps x hx y hy

theorem stableSort_pairwise
    (htrans : ∀ a b c, le a b = true → le b c = true → le a c = true)
    (htot : ∀ a b, le a b = true ∨ le b a = true)
    (l : List α) : (stableSort le l).Pairwise (fun x y => le x y = true) := by
  induction l with
  | nil => simp [stableSort]
  | cons x xs ih => exact sortedInsert_pairwise le htrans htot x _ ih

theorem sortedInsert_filter (pr : α → Bool)
    (hp : ∀ x y, pr x = true → pr y = true → le x y = true)
    (a : α) (l : List α) :
    (sortedInsert le a l).filter pr =
      if pr a then a :: l.filter pr else l.filter pr := by
  obtain ⟨p, s, h1, h2, h3, _⟩ := sortedInsert_decomp le a l
  subst h2
  rw [h1, List.filter_append, List.filter_append, List.filter_cons]
  by_cases hpa : pr a = true
  · have hpnone : p.filter pr = [] := by
      rw [List.filter_eq_nil_iff]
      intro b hb
      intro hpb
      exact absurd (hp a b hpa hpb) (by simp [(h3 b hb).2])
    simp [hpa, hpnone]
  · simp [hpa]

theorem stableSort_filter (pr : α → Bool)
    (hp : ∀ x y, pr x = true → pr y = true → le x y = true)
    (l : List α) : (stableSort le l).filter pr = l.filter pr := by
  induction l with
  | nil => rfl
  | cons x xs ih =>
    rw [stableSort, sortedInsert_filter le pr hp x _, List.filter_cons]
    by_cases hpx : pr x = true
    · simp [hpx, ih]
    · simp [hpx, ih]

end StableSortMore

theorem pairwise_of_filter_classes {α β : Type} [DecidableEq β] (key : α → β)
    (R : α → α → Prop) (l : List α)
    (h : ∀ c, (l.filter (fun x => decide (key x = c))).Pairwise R) :
    l.Pairwise (fun a b => key a = key b → R a b) := by
  induction l with
  | nil => simp
  | cons x xs ih =>
    rw [List.pairwise_cons]
    constructor
    · intro b hb hkey
      have hx := h (key x)
      rw [List.filter_cons, if_pos (by simp)] at hx
      exact (List.pairwise_cons.mp hx).1 b (List.mem_filter.mpr ⟨hb, by simp [hkey]⟩)
    · apply ih
      intro c
      have hc := h c
      rw [List.filter_cons] at hc
      by_cases hkc : key x = c
      · rw [if_pos (by simp [hkc])] at hc
        exact (List.pairwise_cons.mp hc).2
      · rwa [if_neg (by simp [hkc])] at hc

theorem PyDate.leb_refl (a : PyDate) : PyDate.leb a a = true := by
  simp [PyDate.leb]

theorem PyDate.leb_trans (a b c : PyDate) (h1 : PyDate.leb a b = true)
    (h2 : PyDate.leb b c = true) : PyDate.leb a c = true := by
  simp only [PyDate.leb, Bool.or_eq_true, Bool.and_eq_true, decide_eq_true_eq] at *
  omega

theorem PyDate.leb_total (a b : PyDate) :
    PyDate.leb a b = true ∨ PyDate.leb b a = true := by
  simp only [PyDate.leb, Bool.or_eq_true, Bool.and_eq_true, decide_eq_true_eq]
  omega

theorem boolLe_trans (a b c : Bool) (h1 : boolLe a b = true) (h2 : boolLe b c = true) :
    boolLe a c = true := by
  revert h1 h2
  cases a <;> cases b <;> cases c <;> decide

theorem boolLe_total (a b : Bool) : boolLe a b = true ∨ boolLe b a = true := by
  cases a <;> cases b <;> simp [boolLe]

theorem from_string_short (s : String) (h : (splitCS s.toList).length < 6) :
    ∃ e, Task.from_string s = .error e := by
  rcases hf : splitCS s.toList with _ | ⟨f0, rest0⟩
  · exact ⟨.indexError, by simp only [Task.from_string, hf, pyIdx]; rfl⟩
  rcases rest0 with _ | ⟨f1, rest1⟩
  · exact ⟨.indexError, by simp only [Task.from_string, hf, pyIdx]; rfl⟩
  rcases rest1 with _ | ⟨f2, rest2⟩
  · exact ⟨.indexError, by simp only [Task.from_string, hf, pyIdx]; rfl⟩
  rcases rest2 with _ | ⟨f3, rest3⟩
  · exact ⟨.indexError, by simp only [Task.from_string, hf, pyIdx]; rfl⟩
  rcases rest3 with _ | ⟨f4, rest4⟩
  · cases hp : parseDate f3 with
    | none =>
      exact ⟨.valueError, by
        simp only [Task.from_string, hf, pyIdx, List.get?, pyStrptime, hp]⟩
    | some d =>
      exact ⟨.indexError, by
        simp only [Task.from_string, hf, pyIdx, List.get?, pyStrptime, hp]⟩
  rcases rest4 with _ | ⟨f5, rest5⟩
  · cases hp : parseDate f3 with
    | none =>
      exact ⟨.valueError, by
        simp only [Task.from_string, hf, pyIdx, List.get?, pyStrptime, hp]⟩
    | some d =>
      cases hp4 : parseDate f4 with
      | none =>
        exact ⟨.valueError, by
          simp only [Task.from_string, hf, pyIdx, List.get?, pyStrptime, hp, hp4]⟩
      | some d4 =>
        exact ⟨.indexError, by
          simp only [Task.from_string, hf, pyIdx, List.get?, pyStrptime, hp, hp4]⟩
  · exfalso
    rw [hf] at h
    simp at h
    omega



/-! ### The claims -/

/-- C1: the spec claims that `Task.update` with a stale compare token (the
old encoded line no longer present verbatim in the freshly read file)
reports failure and performs no write.  On the code, the conflict test
`task_list != new_task_list` compares a `list[Task]` with a `list[str]`,
which is true for every non-empty file, so the stale update takes the
*write* branch: here a one-task file stored with a non-canonical date
(`1 Jan 2030`) is rewritten — byte-changed — and no conflict is
reported, even though the stale token matches no line. -/
theorem update_stale_token_writes :
    get_all_task_data "alice, T1, D1, 1 Jan 2030, 01 Jan 2030, No" =
      .ok [⟨"alice", "T1", "D1", ⟨2030, 1, 1⟩, ⟨2030, 1, 1⟩, false⟩] ∧
    Task.update ⟨"bob", "T2", "D2", ⟨2030, 2, 2⟩, ⟨2030, 2, 2⟩, true⟩
        "bob, T0, D0, 01 Jan 2030, 01 Jan 2030, No"
        "alice, T1, D1, 1 Jan 2030, 01 Jan 2030, No" =
      .ok ⟨"alice, T1, D1, 01 Jan 2030, 01 Jan 2030, No", false⟩ ∧
    ("alice, T1, D1, 01 Jan 2030, 01 Jan 2030, No" : String) ≠
      "alice, T1, D1, 1 Jan 2030, 01 Jan 2030, No" ∧
    ("bob, T0, D0, 01 Jan 2030, 01 Jan 2030, No" : String) ≠
      "alice, T1, D1, 1 Jan 2030, 01 Jan 2030, No" :=
  ⟨rfl, rfl, by decide, by decide⟩

/-- C2: the spec claims `sort_tasks` places incomplete tasks before completed
ones and yields `[A, C, B]` on the three-task example; on the code the two
stable descending passes place *completed* tasks first.  Amended statement:
`sort_tasks` is a permutation, it is sorted with completed tasks before
incomplete ones and due date descending within each completion group, it is
stable (tasks tied on both keys keep their original relative order), and on
the spec example `[A(due 10, incomplete), B(due 5, complete),
C(due 10, complete)]` it returns `[C, B, A]`. -/
theorem sort_tasks_spec :
    (∀ l : List Task, (sort_tasks l).Perm l) ∧
    (∀ l : List Task, (sort_tasks l).Pairwise (fun a b =>
      boolLe b.completed a.completed = true ∧
        (a.completed = b.completed → PyDate.leb b.due_date a.due_date = true))) ∧
    (∀ (l : List Task) (c : Bool) (dd : PyDate),
      (sort_tasks l).filter (fun t => decide (t.completed = c ∧ t.due_date = dd)) =
        l.filter (fun t => decide (t.completed = c ∧ t.due_date = dd))) ∧
    sort_tasks
        [⟨"u", "A", "d", ⟨2030, 1, 10⟩, ⟨2030, 1, 1⟩, false⟩,
         ⟨"u", "B", "d", ⟨2030, 1, 5⟩, ⟨2030, 1, 1⟩, true⟩,
         ⟨"u", "C", "d", ⟨2030, 1, 10⟩, ⟨2030, 1, 1⟩, true⟩] =
      [⟨"u", "C", "d", ⟨2030, 1, 10⟩, ⟨2030, 1, 1⟩, true⟩,
       ⟨"u", "B", "d", ⟨2030, 1, 5⟩, ⟨2030, 1, 1⟩, true⟩,
       ⟨"u", "A", "d", ⟨2030, 1, 10⟩, ⟨2030, 1, 1⟩, false⟩] := by
  have le1trans : ∀ a b c : Task, PyDate.leb b.due_date a.due_date = true →
      PyDate.leb c.due_date b.due_date = true →
      PyDate.leb c.due_date a.due_date = true :=
    fun a b c h1 h2 => PyDate.leb_trans _ _ _ h2 h1
  have le1tot : ∀ a b : Task, PyDate.leb b.due_date a.due_date = true ∨
      PyDate.leb a.due_date b.due_date = true :=
    fun a b => (PyDate.leb_total b.due_date a.due_date)
  have le2trans : ∀ a b c : Task, boolLe b.completed a.completed = true →
      boolLe c.completed b.completed = true →
      boolLe c.completed a.completed = true :=
    fun a b c h1 h2 => boolLe_trans _ _ _ h2 h1
  have le2tot : ∀ a b : Task, boolLe b.completed a.completed = true ∨
      boolLe a.completed b.completed = true :=
    fun a b => boolLe_total b.completed a.completed
  refine ⟨?_, ?_, ?_, ?_⟩
  · intro l
    exact (stableSort_perm _ _).trans (stableSort_perm _ _)
  · intro l
    have hprim : (sort_tasks l).Pairwise
        (fun a b => boolLe b.completed a.completed = true) :=
      stableSort_pairwise _ le2trans le2tot _
    have hsec : ∀ c : Bool, ((sort_tasks l).filter
        (fun x => decide (x.completed = c))).Pairwise
        (fun a b => PyDate.leb b.due_date a.due_date = true) := by
      intro c
      have heq : (sort_tasks l).filter (fun x => decide (x.completed = c)) =
          (stableSort (fun a b => PyDate.leb b.due_date a.due_date) l).filter
            (fun x => decide (x.completed = c)) := by
        apply stableSort_filter
        intro x y hx hy
        simp only [decide_eq_true_eq] at hx hy
        simp [boolLe, hx, hy]
      rw [heq]
      exact (stableSort_pairwise _ le1trans le1tot l).filter _
    have := pairwise_of_filter_classes Task.completed
      (fun a b => PyDate.leb b.due_date a.due_date = true) (sort_tasks l) hsec
    exact hprim.and this
  · intro l c dd
    have h2 : (sort_tasks l).filter (fun t => decide (t.completed = c ∧ t.due_date = dd)) =
        (stableSort (fun a b => PyDate.leb b.due_date a.due_date) l).filter
          (fun t => decide (t.completed = c ∧ t.due_date = dd)) := by
      apply stableSort_filter
      intro x y hx hy
      simp only [decide_eq_true_eq] at hx hy
      simp [boolLe, hx.1, hy.1]
    have h1 : (stableSort (fun a b => PyDate.leb b.due_date a.due_date) l).filter
          (fun t => decide (t.completed = c ∧ t.due_date = dd)) =
        l.filter (fun t => decide (t.completed = c ∧ t.due_date = dd)) := by
      apply stableSort_filter
      intro x y hx hy
      simp only [decide_eq_true_eq] at hx hy
      rw [hx.2, hy.2]
      exact PyDate.leb_refl dd
    rw [h2, h1]
  · rfl

/-- C2 counterexample: on the spec's example the code returns `[C, B, A]`,
not the claimed `[A, C, B]` — completed tasks come first. -/
theorem sort_tasks_counterexample :
    sort_tasks
        [⟨"u", "A", "d", ⟨2030, 1, 10⟩, ⟨2030, 1, 1⟩, false⟩,
         ⟨"u", "B", "d", ⟨2030, 1, 5⟩, ⟨2030, 1, 1⟩, true⟩,
         ⟨"u", "C", "d", ⟨2030, 1, 10⟩, ⟨2030, 1, 1⟩, true⟩] ≠
      [⟨"u", "A", "d", ⟨2030, 1, 10⟩, ⟨2030, 1, 1⟩, false⟩,
       ⟨"u", "C", "d", ⟨2030, 1, 10⟩, ⟨2030, 1, 1⟩, true⟩,
       ⟨"u", "B", "d", ⟨2030, 1, 5⟩, ⟨2030, 1, 1⟩, true⟩] ∧
    sort_tasks
        [⟨"u", "A", "d", ⟨2030, 1, 10⟩, ⟨2030, 1, 1⟩, false⟩,
         ⟨"u", "B", "d", ⟨2030, 1, 5⟩, ⟨2030, 1, 1⟩, true⟩,
         ⟨"u", "C", "d", ⟨2030, 1, 10⟩, ⟨2030, 1, 1⟩, true⟩] =
      [⟨"u", "C", "d", ⟨2030, 1, 10⟩, ⟨2030, 1, 1⟩, true⟩,
       ⟨"u", "B", "d", ⟨2030, 1, 5⟩, ⟨2030, 1, 1⟩, true⟩,
       ⟨"u", "A", "d", ⟨2030, 1, 10⟩, ⟨2030, 1, 1⟩, false⟩] :=
  ⟨by decide, rfl⟩

/-- C3: the spec claims `generate_reports` guards its percentages against
`total == 0` and states "no tasks"; the code has no guard — on an empty
task list the incomplete-percentage division raises `ZeroDivisionError`
(and reading an empty `tasks.txt` already raises `IndexError` while
decoding the blank line). -/
theorem generate_reports_zero_division :
    task_overview_stats [] ⟨⟨2026, 10, 12⟩, 1⟩ = .error .zeroDivisionError ∧
    generate_reports "" ⟨⟨2026, 10, 12⟩, 1⟩ = .error .indexError :=
  ⟨rfl, rfl⟩

/-- C4: the spec claims `get_all_task_data` on an empty file returns the
empty sequence; the code splits the empty body into the single line `""`,
decodes it as a record and raises `IndexError` at `tasks[1]`. -/
theorem get_all_task_data_empty_raises :
    get_all_task_data "" = .error .indexError ∧
    Task.from_string "" = .error .indexError :=
  ⟨rfl, rfl⟩

/-- C5: round-trip law of the codec — for every valid record (string
fields free of the `", "` delimiter, dates real calendar dates with
four-digit years), decoding the encoding reconstructs the record exactly,
for tasks and users alike. -/
theorem codec_roundtrip :
    (∀ t : Task, t.valid → Task.from_string (Task.to_string t) = .ok t) ∧
    (∀ u : User, u.valid → User.from_string (User.to_string u) = .ok u) :=
  ⟨task_roundtrip, user_roundtrip⟩

/-- C5 witness: the round-trip law evaluated at a concrete task and a
concrete user. -/
theorem codec_roundtrip_witness :
    Task.from_string
        (Task.to_string ⟨"alice", "T1", "D1", ⟨2030, 1, 1⟩, ⟨2029, 12, 24⟩, false⟩) =
      .ok ⟨"alice", "T1", "D1", ⟨2030, 1, 1⟩, ⟨2029, 12, 24⟩, false⟩ ∧
    User.from_string (User.to_string ⟨"alice", "pw1"⟩) = .ok ⟨"alice", "pw1"⟩ :=
  ⟨codec_roundtrip.1 _ (by decide), codec_roundtrip.2 _ (by decide)⟩

/-- C6: amended statement of decode-failure behaviour.  `Task.from_string`
does raise on a wrong *low* field count (fewer than six fields:
`IndexError`) and on malformed date fields (`ValueError`, e.g. day `99` or
the impossible `31 Feb`); but the boolean field is never validated — a
sixth field other than `Yes` (here `Maybe`) is silently decoded as
not-completed — and fields past the sixth are ignored, not rejected. -/
theorem from_string_amended_spec :
    (∀ s : String, (splitCS s.toList).length < 6 → ∃ e, Task.from_string s = .error e) ∧
    Task.from_string "u, t, d, 99 Jan 2030, 01 Jan 2030, No" = .error .valueError ∧
    Task.from_string "u, t, d, 31 Feb 2030, 01 Jan 2030, No" = .error .valueError ∧
    Task.from_string "u, t, d, 01 Jan 2030, 01 Jan 2030, Maybe" =
      .ok ⟨"u", "t", "d", ⟨2030, 1, 1⟩, ⟨2030, 1, 1⟩, false⟩ ∧
    Task.from_string "u, t, d, 01 Jan 2030, 01 Jan 2030, No, extra" =
      .ok ⟨"u", "t", "d", ⟨2030, 1, 1⟩, ⟨2030, 1, 1⟩, false⟩ :=
  ⟨from_string_short, rfl, rfl, rfl, rfl⟩

/-- C6 counterexample: a sixth field that is neither `Yes` nor `No` is
*not* rejected — the line decodes successfully with `completed = false`. -/
theorem from_string_bad_bool_accepted :
    Task.from_string "u, t, d, 01 Jan 2030, 01 Jan 2030, Perhaps" =
      .ok ⟨"u", "t", "d", ⟨2030, 1, 1⟩, ⟨2030, 1, 1⟩, false⟩ :=
  rfl

/-- C7: amended statement of the per-user statistics.  When the user has no
tasks the three per-completion percentages are omitted, and
`percentage_of_total_tasks` is still computed against the global total —
but with *no* guard: a global total of 0 raises `ZeroDivisionError`.
The third conjunct ties `User.stats` to the task list read from the file. -/
theorem user_stats_amended_spec :
    (∀ (u : User) (now : PyDateTime),
      User.stats_calc u [] now = .error .zeroDivisionError) ∧
    (∀ (u : User) (tasks : List Task) (now : PyDateTime), tasks ≠ [] →
      tasks.filter (fun t => t.username = u.username) = [] →
      User.stats_calc u tasks now = .ok ⟨tasks.length, 0, 0, none, none, none⟩) ∧
    (∀ (u : User) (content : String) (now : PyDateTime) (tasks : List Task),
      get_all_task_data content = .ok tasks →
      User.stats u content now = u.stats_calc tasks now) := by
  refine ⟨?_, ?_, ?_⟩
  · intro u now
    rfl
  · intro u tasks now hne hfil
    rw [User.stats_calc, hfil]
    have hlen : tasks.length ≠ 0 := by
      intro h0
      exact hne (List.length_eq_zero.mp h0)
    rw [pyDiv, if_neg hlen]
    have hfl : Rat.floor 0 = 0 := rfl
    have hzero : pyRound2 0 = 0 := by
      norm_num [pyRound2, hfl]
    simp [hzero]
  · intro u content now tasks hdec
    rw [User.stats, hdec]

/-- C7 counterexample: with a global total of 0 the unguarded
`percentage_of_total_tasks` division raises `ZeroDivisionError` (and via
the file, reading an empty `tasks.txt` raises `IndexError` first), so
there is no "same guard" on the global total. -/
theorem user_stats_zero_division :
    User.stats_calc ⟨"alice", "pw1"⟩ [] ⟨⟨2026, 10, 12⟩, 1⟩ =
      .error .zeroDivisionError ∧
    User.stats ⟨"alice", "pw1"⟩ "" ⟨⟨2026, 10, 12⟩, 1⟩ = .error .indexError :=
  ⟨rfl, rfl⟩

/-- C8: `update_assignee` with a `new_username` not among the stored
usernames shows the unknown-user prompt and leaves `tasks.txt` untouched;
with a known username it runs the compare-and-update `Task.update` with the
task's captured encoding as the compare token. -/
theorem update_assignee_spec :
    (∀ (self : Task) (new_username userContent tasksContent : String)
        (users : List User),
      get_all_user_data userContent = .ok users →
      new_username ∉ users.map (fun u => u.username) →
      Task.update_assignee self new_username userContent tasksContent =
        .ok ⟨tasksContent, true, false⟩) ∧
    (∀ (self : Task) (new_username userContent tasksContent : String)
        (users : List User),
      get_all_user_data userContent = .ok users →
      new_username ∈ users.map (fun u => u.username) →
      Task.update_assignee self new_username userContent tasksContent =
        match Task.update { self with username := new_username } self.to_string
            tasksContent with
        | .error e => .error e
        | .ok r => .ok ⟨r.file, false, r.conflictMsg⟩) := by
  constructor
  · intro self new_username userContent tasksContent users hdec hmem
    rw [Task.update_assignee, hdec]
    simp [hmem]
  · intro self new_username userContent tasksContent users hdec hmem
    rw [Task.update_assignee, hdec]
    simp [hmem]

/-- C9: `User.validate` returns the first stored user (in file order) whose
username and password both equal the given pair — so a returned user's
credentials always equal the input — and returns `None` exactly when no
stored user matches. -/
theorem validate_spec :
    (∀ (username password userContent : String) (users : List User) (u : User),
      get_all_user_data userContent = .ok users →
      User.validate username password userContent = .ok (some u) →
      u.username = username ∧ u.password = password ∧
        ∃ l1 l2, users = l1 ++ u :: l2 ∧
          ∀ v ∈ l1, ¬(v.username = username ∧ v.password = password)) ∧
    (∀ (username password userContent : String) (users : List User),
      get_all_user_data userContent = .ok users →
      (User.validate username password userContent = .ok none ↔
        ∀ u ∈ users, ¬(u.username = username ∧ u.password = password))) := by
  constructor
  · intro username password userContent users u hdec hval
    rw [User.validate, hdec] at hval
    simp only [Except.ok.injEq] at hval
    obtain ⟨hpu, l1, l2, hsplit, hbefore⟩ := List.find?_eq_some.mp hval
    simp only [Bool.and_eq_true, decide_eq_true_eq] at hpu
    refine ⟨hpu.1.symm, hpu.2.symm, l1, l2, hsplit, ?_⟩
    intro v hv hcontra
    have := hbefore v hv
    simp only [Bool.not_eq_true', Bool.and_eq_false_iff, decide_eq_false_iff_not] at this
    rcases this with h' | h'
    · exact h' hcontra.1.symm
    · exact h' hcontra.2.symm
  · intro username password userContent users hdec
    rw [User.validate, hdec]
    simp only [Except.ok.injEq]
    rw [List.find?_eq_none]
    constructor
    · intro hnone u hu hcontra
      exact hnone u hu (by simp [hcontra.1, hcontra.2])
    · intro hall u hu
      intro hp
      simp only [Bool.and_eq_true, decide_eq_true_eq] at hp
      exact hall u hu ⟨hp.1.symm, hp.2.symm⟩

/-- C10: every append operation (`Task.update` with empty
`original_task_string`, `User.new`) writes a newline followed by the encoded
record at the end of the file, keeping the previous content as an unchanged
prefix; appending to an empty file therefore yields content whose first
line is empty. -/
theorem append_spec :
    (∀ (t : Task) (content : String),
      Task.update t "" content = .ok ⟨content ++ "\n" ++ t.to_string, false⟩) ∧
    (∀ (u : User) (content : String),
      User.new u content = content ++ "\n" ++ u.to_string) ∧
    (∀ (u : User) (content : String),
      content.toList <+: (User.new u content).toList) ∧
    (∀ (t : Task), Task.update t "" "" = .ok ⟨"\n" ++ t.to_string, false⟩) ∧
    (∀ (u : User), (splitOnChar '\n' (User.new u "").toList).head? = some []) ∧
    (∀ (t : Task), (splitOnChar '\n' ("\n" ++ t.to_string).toList).head? = some []) := by
  refine ⟨?_, ?_, ?_, ?_, ?_, ?_⟩
  · intro t content
    rfl
  · intro u content
    rfl
  · intro u content
    show content.toList <+: (content ++ "\n" ++ u.to_string).toList
    have : (content ++ "\n" ++ u.to_string).toList =
        content.toList ++ ("\n" ++ u.to_string).toList := by
      simp [String.toList]
    rw [this]
    exact List.prefix_append _ _
  · intro t
    rfl
  · intro u
    show (splitOnChar '\n' ("" ++ "\n" ++ u.to_string).toList).head? = some []
    have : ("" ++ "\n" ++ u.to_string).toList = '\n' :: u.to_string.toList := rfl
    rw [this, splitOnChar_pair]
    rfl
  · intro t
    have : ("\n" ++ t.to_string).toList = '\n' :: t.to_string.toList := rfl
    rw [this, splitOnChar_pair]
    rfl

end TaskManager
